import Mathlib

/-!
Shallow embedding of the dissemination-metrics engine of
`agencyenterprise/gossip-host` (`pkg/analysis/utils.go`), together with
proofs about the properties of its parser, aggregator, propagation-graph
builder and metrics calculator.

Raw log lines are modelled as `List Char` (a Go string is a byte/rune
sequence); parsed fields become Lean `String`s.  Machine integers are
modelled as `Nat`/`Int` with explicit reductions modulo `2 ^ 64` where Go
arithmetic wraps.  Go map iteration order is unspecified, so operations
that range over a map are parameterized by the iteration order actually
taken, constrained to enumerate each key exactly once.
-/

namespace GossipHost

instance {ε : Type u} {α : Type v} [DecidableEq ε] [DecidableEq α] :
    DecidableEq (Except ε α) := fun a b =>
  match a, b with
  | .error e1, .error e2 =>
    if h : e1 = e2 then isTrue (by rw [h]) else isFalse (fun hh => by cases hh; exact h rfl)
  | .error _, .ok _ => isFalse (fun h => Except.noConfusion h)
  | .ok _, .error _ => isFalse (fun h => Except.noConfusion h)
  | .ok a1, .ok a2 =>
    if h : a1 = a2 then isTrue (by rw [h]) else isFalse (fun hh => by cases hh; exact h rfl)

/-- One observed delivery event, mirroring the `types.MessageLog` record as
populated by `buildMessageLogFromStrings` in `pkg/analysis/utils.go`
(fields `HostID, SenderID, MessageID, SeqNo, NanoTime, Seq`).  `SeqNo` is a
`uint64` value, `NanoTime` an `int64` value, `Seq` a platform `int`. -/
structure MessageLog where
  HostID : String
  SenderID : String
  MessageID : String
  SeqNo : Nat
  NanoTime : Int
  Seq : Int
deriving DecidableEq, Repr, Inhabited

/-- Tests whether `pat` is an initial segment of `s`. -/
def startsWithChars : List Char → List Char → Bool
  | [], _ => true
  | _ :: _, [] => false
  | p :: ps, c :: cs => p == c && startsWithChars ps cs

/-- Go `strings.Contains` on rune lists: `pat` occurs somewhere in `s`
(always true for an empty `pat`, as in Go). -/
def containsChars (pat : List Char) : List Char → Bool
  | [] => pat.isEmpty
  | c :: cs => startsWithChars pat (c :: cs) || containsChars pat cs

/-- Worker for `removeAllChars`.  The `Nat` argument is fuel; instantiating
it with the length of the string always suffices because every step
consumes at least one character of the remaining input. -/
def removeAllCharsAux (pat : List Char) : Nat → List Char → List Char
  | _, [] => []
  | 0, s => s
  | fuel + 1, c :: cs =>
    if !pat.isEmpty && startsWithChars pat (c :: cs) then
      removeAllCharsAux pat fuel ((c :: cs).drop pat.length)
    else
      c :: removeAllCharsAux pat fuel cs

/-- Go `strings.ReplaceAll s pat ""` on rune lists: removes every leftmost,
non-overlapping occurrence of `pat` (the identity when `pat` is empty,
since the replacement is itself empty). -/
def removeAllChars (pat s : List Char) : List Char :=
  removeAllCharsAux pat s.length s

/-- Go `strings.Split s ","` on rune lists: the chunks of `s` between
occurrences of `','`; splitting the empty string yields one empty chunk. -/
def splitOnComma : List Char → List (List Char)
  | [] => [[]]
  | c :: cs =>
    match splitOnComma cs with
    | [] => [[]]
    | g :: gs => if c == ',' then [] :: g :: gs else (c :: g) :: gs

/-- Numeric value of a decimal digit sequence, most significant first. -/
def decimalValue (s : List Char) : Nat :=
  s.foldl (fun acc c => acc * 10 + (c.toNat - 48)) 0

/-- Go `strconv.ParseUint(s, 10, 64)`: digits only (no sign allowed),
non-empty, value below `2 ^ 64`; otherwise an error (Go wraps `ErrSyntax`
or `ErrRange` in a `*strconv.NumError`, modelled by the message string). -/
def goParseUint64 (s : List Char) : Except String Nat :=
  if !s.isEmpty && s.all Char.isDigit then
    if decimalValue s < 2 ^ 64 then .ok (decimalValue s)
    else .error "value out of range"
  else .error "invalid syntax"

/-- Go `strconv.ParseInt(s, 10, 64)`: an optional single sign followed by a
non-empty digit sequence, value within `[-2 ^ 63, 2 ^ 63)`. -/
def goParseInt64 (s : List Char) : Except String Int :=
  match s with
  | '-' :: rest =>
    if !rest.isEmpty && rest.all Char.isDigit then
      if decimalValue rest ≤ 2 ^ 63 then .ok (-(decimalValue rest : Int))
      else .error "value out of range"
    else .error "invalid syntax"
  | '+' :: rest =>
    if !rest.isEmpty && rest.all Char.isDigit then
      if decimalValue rest < 2 ^ 63 then .ok ((decimalValue rest : Int))
      else .error "value out of range"
    else .error "invalid syntax"
  | _ =>
    if !s.isEmpty && s.all Char.isDigit then
      if decimalValue s < 2 ^ 63 then .ok ((decimalValue s : Int))
      else .error "value out of range"
  else .error "invalid syntax"

/-- Go `strconv.Atoi` on a 64-bit platform, where `int` is 64 bits wide. -/
def goAtoi (s : List Char) : Except String Int := goParseInt64 s

/-- The error kinds a parse can surface.  `MalformedLogLine` mirrors
`types.ErrImproperlyFormattedLogLine`; `Underlying msg` stands for any
other error value in scope — in particular the `strconv` errors produced
by the numeric parsers — which the parser could in principle have leaked
but never returns. -/
inductive ParseError where
  | MalformedLogLine : ParseError
  | Underlying : String → ParseError
deriving DecidableEq, Repr

/-- Mirrors `buildMessageLogFromStrings` (`pkg/analysis/utils.go:226-254`):
fields are `hostID, senderID, messageID, seqNo, nanoTime, seq`; every
failed numeric conversion is replaced by `ErrImproperlyFormattedLogLine`.
The catch-all case is unreachable from `parseLogLine`, which has already
checked the field count. -/
def buildMessageLogFromStrings (data : List (List Char)) : Except ParseError MessageLog :=
  match data with
  | [hostID, senderID, messageID, d3, d4, d5] =>
    match goParseUint64 d3 with
    | .error _ => .error .MalformedLogLine
    | .ok seqNo =>
      match goParseInt64 d4 with
      | .error _ => .error .MalformedLogLine
      | .ok unixNano =>
        match goAtoi d5 with
        | .error _ => .error .MalformedLogLine
        | .ok seq =>
          .ok ⟨⟨hostID⟩, ⟨senderID⟩, ⟨messageID⟩, seqNo, unixNano, seq⟩
  | _ => .error .MalformedLogLine

/-- Mirrors `parseLogLine` (`pkg/analysis/utils.go:66-81`).  The marker
constant `types.LogLineLeader` is defined in a package that is not under
`src/`, so the function is parameterized by it.  `.ok none` is the Go
`nil, nil` result marking an irrelevant line. -/
def parseLogLine (marker : String) (logLine : List Char) :
    Except ParseError (Option MessageLog) :=
  if containsChars marker.toList logLine = false then .ok none
  else
    let line := removeAllChars marker.toList logLine
    let data := splitOnComma line
    if data.length ≠ 6 then .error .MalformedLogLine
    else (buildMessageLogFromStrings data).map some

/-- The distinct `messageID`s of the input — the keys of the Go map built
by `groupMessageLogsByID` (`pkg/analysis/utils.go:200-213`). -/
def keysOf (messageLogs : List MessageLog) : List String :=
  (messageLogs.map (·.MessageID)).dedup

/-- Go ranges over the grouping map in an unspecified order; one run of the
reference program corresponds to some `order` enumerating each key exactly
once, i.e. a permutation of `keysOf`. -/
def validOrder (order : List String) (messageLogs : List MessageLog) : Prop :=
  order.Perm (keysOf messageLogs)

instance (order : List String) (messageLogs : List MessageLog) :
    Decidable (validOrder order messageLogs) :=
  List.decidablePerm order (keysOf messageLogs)

/-- Mirrors `groupMessageLogsByID` (`pkg/analysis/utils.go:200-213`): the
bucket of key `k` holds exactly the records with `MessageID = k`, in input
order; buckets are emitted in the map-iteration order `order`. -/
def groupMessageLogsByID (order : List String) (messageLogs : List MessageLog) :
    List (List MessageLog) :=
  order.map fun k => messageLogs.filter fun r => r.MessageID == k

/-- The chronological order on records used by `sortMessageLogs`
(`pkg/analysis/utils.go:215-224`, closure `unixNanoTimestamp`). -/
def nanoLE (m1 m2 : MessageLog) : Prop := m1.NanoTime ≤ m2.NanoTime

instance : DecidableRel nanoLE := fun m1 m2 => Int.decLe m1.NanoTime m2.NanoTime

instance : IsTotal MessageLog nanoLE := ⟨fun m1 m2 => Int.le_total m1.NanoTime m2.NanoTime⟩

instance : IsTrans MessageLog nanoLE := ⟨fun _ _ _ => Int.le_trans⟩

/-- Modelled from the spec: the package `pkg/analysis/sorter` used by
`sortMessageLogs` is not under `src/`.  Spec §4.2 requires each group to be
sorted ascending by `nanoTime`, with stability under equal timestamps left
unspecified, so a single group's sort is modelled as an insertion sort by
`nanoTime`. -/
def sorterSort (messageLogs : List MessageLog) : List MessageLog :=
  messageLogs.insertionSort nanoLE

/-- Mirrors `sortMessageLogs` (`pkg/analysis/utils.go:215-224`): sorts
every group. -/
def sortMessageLogs (messageLogsGroups : List (List MessageLog)) : List (List MessageLog) :=
  messageLogsGroups.map sorterSort

/-- Go `uint64(x)` applied to the result of an `int64` subtraction: the
`int64` wrap-around and the unsigned reinterpretation compose into a single
reduction modulo `2 ^ 64`. -/
def goUInt64OfInt (x : Int) : Nat := (x % (2 ^ 64 : Int)).toNat

/-- Mirrors `calcTotalNanoTime` (`pkg/analysis/utils.go:127-129`):
`uint64(logs[len-1].NanoTime - logs[0].NanoTime)`.  Go indexes the slice
and would panic on an empty group; the function is only called on
non-empty groups, and the empty case is given the junk value `0`. -/
def calcTotalNanoTime : List MessageLog → Nat
  | [] => 0
  | first :: rest =>
    goUInt64OfInt
      (((first :: rest).getLast (List.cons_ne_nil first rest)).NanoTime - first.NanoTime)

/-- Mirrors `countUniqueHosts` (`pkg/analysis/utils.go:190-198`): the
number of distinct strings occurring as a `HostID` or a `SenderID` — Go
collects both into a set-like map and returns its size. -/
def countUniqueHosts (sortedMessageLogs : List MessageLog) : Nat :=
  ((sortedMessageLogs.map (·.HostID) ++ sortedMessageLogs.map (·.SenderID)).dedup).length

/-- Mirrors `calcRMR` (`pkg/analysis/utils.go:131-138`).  The `float32`
arithmetic is modelled over `ℚ`.  Only `uniqueHosts == 0` is guarded;
`uniqueHosts == 1` falls through to a division by zero (which in Go
produces `+Inf` rather than an error). -/
def calcRMR (sortedMessageLogs : List MessageLog) : Except String ℚ :=
  if countUniqueHosts sortedMessageLogs = 0 then
    .error "cannot calculate RMR with one host"
  else
    .ok ((sortedMessageLogs.length : ℚ) / ((countUniqueHosts sortedMessageLogs : ℚ) - 1) - 1)

/-- The adjacency structure built by `calcLastDeliveryHop`
(`pkg/analysis/utils.go:142-151`): `m senderID` is the set of `HostID`s of
the records sent by `senderID` (duplicate `(senderID, HostID)` pairs
overwrite one another in the Go map, hence the `dedup`).  Go iterates the
inner map in an unspecified order; no fact proved below depends on the
order of this list. -/
def edgeMapOf (sortedMessageLogs : List MessageLog) : String → List String :=
  fun senderID =>
    ((sortedMessageLogs.filter fun msg => msg.SenderID == senderID).map (·.HostID)).dedup

/-- Mirrors `prependString` (`pkg/analysis/utils.go:184-188`). -/
def prependString (s : String) (arr : List String) : List String := s :: arr

/-- Mirrors `buildPathsForSenderID` (`pkg/analysis/utils.go:169-181`).  The
Go function recurses with no structural bound, so the model takes a fuel
argument counting the allowed recursion depth: `none` means the recursion
did not complete within `fuel` nested calls — `none` at every fuel means
the Go original recurses forever. -/
def buildPathsForSenderID : Nat → String → (String → List String) → Option (List (List String))
  | 0, _, _ => none
  | fuel + 1, senderID, m =>
    (m senderID).foldlM
      (fun ret recipient =>
        (buildPathsForSenderID fuel recipient m).map
          fun paths => ret ++ paths.map (prependString senderID))
      []

/-- Mirrors `calcLastDeliveryHop` (`pkg/analysis/utils.go:140-165`): the
maximum length among the enumerated paths (Go takes `math.Max` over the
lengths as `float64` and casts to `uint`, exact at these magnitudes), `0`
when no path was enumerated.  The fuel feeds `buildPathsForSenderID`; Go
would panic on an empty group, modelled as `none`. -/
def calcLastDeliveryHop (fuel : Nat) (sortedMessageLogs : List MessageLog) : Option Nat :=
  match sortedMessageLogs with
  | [] => none
  | first :: _ =>
    (buildPathsForSenderID fuel first.SenderID (edgeMapOf sortedMessageLogs)).map
      fun paths => paths.foldl (fun acc path => Nat.max acc path.length) 0

/-- Mirrors `types.Metric` as populated by
`buildMetricsFromSortedMessageLogs`. -/
structure Metric where
  TotalNanoTime : Nat
  RelativeMessageRedundancy : ℚ
  LastDeliveryHop : Nat
deriving DecidableEq, Repr, Inhabited

/-- Mirrors `buildMetricsFromSortedMessageLogs`
(`pkg/analysis/utils.go:107-125`).  The outer `Option` is the fuel layer of
`calcLastDeliveryHop` (Go has no such layer: it simply never returns when
the path enumeration does not terminate); the inner `Except` carries the
Go error returns. -/
def buildMetricsFromSortedMessageLogs (fuel : Nat) :
    List MessageLog → Option (Except String Metric)
  | [] => some (.error "no message logs")
  | first :: rest =>
    match calcRMR (first :: rest) with
    | .error e => some (.error e)
    | .ok rmr =>
      match calcLastDeliveryHop fuel (first :: rest) with
      | none => none
      | some hop => some (.ok ⟨calcTotalNanoTime (first :: rest), rmr, hop⟩)

/-- Mirrors `buildMetricsFromSortedMessageLogsGroups`
(`pkg/analysis/utils.go:91-105`): one `Metric` per group, in group order,
short-circuiting on the first error. -/
def buildMetricsFromSortedMessageLogsGroups (fuel : Nat) :
    List (List MessageLog) → Option (Except String (List Metric))
  | [] => some (.ok [])
  | g :: gs =>
    match buildMetricsFromSortedMessageLogs fuel g with
    | none => none
    | some (.error e) => some (.error e)
    | some (.ok metric) =>
      match buildMetricsFromSortedMessageLogsGroups fuel gs with
      | none => none
      | some (.error e) => some (.error e)
      | some (.ok metrics) => some (.ok (metric :: metrics))

/-- Mirrors `buildMetricsFromMessageLogs` (`pkg/analysis/utils.go:83-89`):
group by `messageID` (in map-iteration order `order`), sort every group by
`nanoTime`, then compute one `Metric` per group. -/
def buildMetricsFromMessageLogs (fuel : Nat) (order : List String)
    (messageLogs : List MessageLog) : Option (Except String (List Metric)) :=
  buildMetricsFromSortedMessageLogsGroups fuel
    (sortMessageLogs (groupMessageLogsByID order messageLogs))

/-- A rank function strictly decreasing along every edge of `m`.  For the
finite graphs arising from a message group, admitting such a rank is
exactly acyclicity of the `senderID → recipientID` relation. -/
def Ranked (m : String → List String) (rank : String → Nat) : Prop :=
  ∀ a b, b ∈ m a → rank b < rank a

/-- The edge relation of `m` admits no cycle. -/
def Acyclic (m : String → List String) : Prop := ∃ rank, Ranked m rank

/-- The value range of a Go `int64`. -/
def Int64Range (n : Int) : Prop := -(2 ^ 63) ≤ n ∧ n < 2 ^ 63

instance (n : Int) : Decidable (Int64Range n) :=
  inferInstanceAs (Decidable (And _ _))

/-- The `Metric` the pipeline computes for the group of `messageID = k`
(junk `default` when that computation errors or runs out of fuel). -/
def metricForID (fuel : Nat) (messageLogs : List MessageLog) (k : String) : Metric :=
  match buildMetricsFromSortedMessageLogs fuel
      (sorterSort (messageLogs.filter fun r => r.MessageID == k)) with
  | some (.ok metric) => metric
  | _ => default

/-- The forwarding chain `A→B→C→D` as a message group: `A` sends to `B`,
`B` to `C`, `C` to `D`, in chronological order. -/
def chainLogs : List MessageLog :=
  [⟨"B", "A", "m1", 0, 0, 0⟩, ⟨"C", "B", "m1", 0, 1, 1⟩, ⟨"D", "C", "m1", 0, 2, 2⟩]

/-- A rank function for the forwarding relation of `chainLogs`. -/
def chainRank : String → Nat :=
  fun s => if s = "A" then 3 else if s = "B" then 2 else if s = "C" then 1 else 0

/-- A two-node cycle `A→B→A`: a forwarding chain back to an ancestor. -/
def cycleMap : String → List String :=
  fun s => if s = "A" then ["B"] else if s = "B" then ["A"] else []

/-- A single record whose host and sender coincide: one unique host. -/
def singleHostLog : MessageLog := ⟨"A", "A", "m1", 0, 0, 0⟩

/-- Four records over the three hosts `A`, `B`, `C`. -/
def rmrExample : List MessageLog :=
  [⟨"B", "A", "m1", 0, 0, 0⟩, ⟨"C", "A", "m1", 0, 1, 1⟩,
   ⟨"C", "B", "m1", 0, 2, 2⟩, ⟨"B", "C", "m1", 0, 3, 3⟩]

/-- Records of two distinct messages: `m1` spans 100 nanoseconds, `m2` is a
single event, so their metrics differ. -/
def twoMessageLogs : List MessageLog :=
  [⟨"B", "A", "m1", 0, 0, 0⟩, ⟨"C", "A", "m1", 0, 100, 1⟩, ⟨"E", "D", "m2", 0, 0, 0⟩]

/-- Folding the body of `buildPathsForSenderID` over any recipient list
leaves the accumulator unchanged whenever every recursive call that
completes yields no paths. -/
theorem buildPaths_fold_acc (n : Nat) (m : String → List String) (s : String)
    (hemp : ∀ r ps, buildPathsForSenderID n r m = some ps → ps = []) :
    ∀ (l : List String) (acc out : List (List String)),
      List.foldlM
        (fun ret recipient =>
          (buildPathsForSenderID n recipient m).map
            fun paths => ret ++ paths.map (prependString s))
        acc l = some out →
      out = acc := by
  intro l
  induction l with
  | nil =>
    intro acc out h
    simp only [List.foldlM_nil] at h
    exact (Option.some_inj.mp h).symm
  | cons r l ih =>
    intro acc out h
    rw [List.foldlM_cons] at h
    cases hr : buildPathsForSenderID n r m with
    | none => rw [hr] at h; simp at h
    | some ps =>
      have hps := hemp r ps hr
      subst hps
      rw [hr] at h
      simp only [List.map_nil, List.append_nil, Option.map_some'] at h
      simp only [Option.bind_eq_bind, Option.some_bind] at h
      exact ih acc out h

/-- Whenever `buildPathsForSenderID` completes, it returns an empty list of
paths: the recursion has no case that emits a path, so nothing is ever
enumerated. -/
theorem buildPathsForSenderID_eq_nil (fuel : Nat) :
    ∀ (s : String) (m : String → List String) (ps : List (List String)),
      buildPathsForSenderID fuel s m = some ps → ps = [] := by
  induction fuel with
  | zero => intro s m ps h; simp [buildPathsForSenderID] at h
  | succ n ih =>
    intro s m ps h
    simp only [buildPathsForSenderID] at h
    exact buildPaths_fold_acc n m s (fun r ps' h' => ih r m ps' h') (m s) [] ps h

/-- Folding the body of `buildPathsForSenderID` completes whenever every
recursive call on a listed recipient completes. -/
theorem buildPaths_fold_isSome (n : Nat) (m : String → List String) (s : String) :
    ∀ (l : List String), (∀ r ∈ l, (buildPathsForSenderID n r m).isSome = true) →
      ∀ (acc : List (List String)),
        (List.foldlM
          (fun ret recipient =>
            (buildPathsForSenderID n recipient m).map
              fun paths => ret ++ paths.map (prependString s))
          acc l).isSome = true := by
  intro l
  induction l with
  | nil => intro _ acc; simp [List.foldlM_nil]
  | cons r l ih =>
    intro hs acc
    rw [List.foldlM_cons]
    obtain ⟨ps, hps⟩ := Option.isSome_iff_exists.mp (hs r (List.mem_cons_self r l))
    rw [hps]
    simp only [Option.map_some', Option.bind_eq_bind, Option.some_bind]
    exact ih (fun r' h' => hs r' (List.mem_cons_of_mem _ h')) _

/-- Under a rank certificate for `m`, the recursion completes as soon as
the fuel exceeds the rank of the start node. -/
theorem buildPathsForSenderID_isSome_of_ranked (m : String → List String)
    (rank : String → Nat) (hr : Ranked m rank) :
    ∀ (fuel : Nat) (s : String), rank s < fuel →
      (buildPathsForSenderID fuel s m).isSome = true := by
  intro fuel
  induction fuel with
  | zero => intro s h; exact absurd h (Nat.not_lt_zero _)
  | succ n ih =>
    intro s hs
    simp only [buildPathsForSenderID]
    refine buildPaths_fold_isSome n m s (m s) (fun r hrm => ?_) []
    exact ih r (lt_of_lt_of_le (hr s r hrm) (Nat.lt_succ_iff.mp hs))

/-- On an acyclic edge map with enough fuel, `buildPathsForSenderID`
returns `some []`. -/
theorem buildPathsForSenderID_eq_some_nil (m : String → List String)
    (rank : String → Nat) (hr : Ranked m rank) (fuel : Nat) (s : String)
    (h : rank s < fuel) : buildPathsForSenderID fuel s m = some [] := by
  obtain ⟨ps, hps⟩ :=
    Option.isSome_iff_exists.mp (buildPathsForSenderID_isSome_of_ranked m rank hr fuel s h)
  rw [hps, buildPathsForSenderID_eq_nil fuel s m ps hps]

/-- Whenever `calcLastDeliveryHop` completes, it returns `0`: the path set
it maximizes over is always empty. -/
theorem calcLastDeliveryHop_eq_zero (fuel : Nat) (logs : List MessageLog) (n : Nat)
    (h : calcLastDeliveryHop fuel logs = some n) : n = 0 := by
  match logs with
  | [] => simp [calcLastDeliveryHop] at h
  | first :: rest =>
    simp only [calcLastDeliveryHop] at h
    cases hb : buildPathsForSenderID fuel first.SenderID (edgeMapOf (first :: rest)) with
    | none => rw [hb] at h; simp at h
    | some ps =>
      rw [hb] at h
      rw [buildPathsForSenderID_eq_nil fuel _ _ ps hb] at h
      simp only [Option.map_some', List.foldl_nil, Option.some_inj] at h
      exact h.symm

/-- On the two-node cycle `A→B→A`, the recursion never completes, at any
fuel, from either node: the Go original recurses forever. -/
theorem cycleMap_buildPaths_none (fuel : Nat) :
    buildPathsForSenderID fuel "A" cycleMap = none ∧
    buildPathsForSenderID fuel "B" cycleMap = none := by
  induction fuel with
  | zero => exact ⟨rfl, rfl⟩
  | succ n ih =>
    constructor
    · simp only [buildPathsForSenderID]
      have hA : cycleMap "A" = ["B"] := rfl
      rw [hA, List.foldlM_cons, ih.2]
      simp
    · simp only [buildPathsForSenderID]
      have hB : cycleMap "B" = ["A"] := rfl
      rw [hB, List.foldlM_cons, ih.1]
      simp

/-- The forwarding relation of `chainLogs` is ranked by `chainRank`. -/
theorem chainLogs_ranked : Ranked (edgeMapOf chainLogs) chainRank := by
  intro a b hb
  simp only [edgeMapOf, List.mem_dedup, List.mem_map, List.mem_filter] at hb
  obtain ⟨msg, ⟨hmem, hsend⟩, hhost⟩ := hb
  simp only [chainLogs, List.mem_cons, List.not_mem_nil, or_false] at hmem
  have hsend' : msg.SenderID = a := by simpa using hsend
  rcases hmem with rfl | rfl | rfl <;>
    (subst hhost; rw [← hsend']; decide)

/-- C1 (code_bug evidence): on the forwarding chain `A→B→C→D` the code
never returns `3`; every terminating run of `calcLastDeliveryHop` on the
chain returns `0`, because `buildPathsForSenderID` never emits a path for
a leaf and hence enumerates no path at all. -/
theorem chainLogs_lastDeliveryHop_not_three :
    (∀ fuel : Nat, calcLastDeliveryHop fuel chainLogs ≠ some 3) ∧
    calcLastDeliveryHop 5 chainLogs = some 0 := by
  constructor
  · intro fuel h
    have h0 := calcLastDeliveryHop_eq_zero fuel chainLogs 3 h
    exact absurd h0 (by decide)
  · decide

/-- C2: on every acyclic edge map, `buildPathsForSenderID` returns an
empty list of paths from any start node (with enough fuel for the
recursion to complete), and consequently `calcLastDeliveryHop` of every
non-empty message group with an acyclic forwarding relation is `0`. -/
theorem acyclic_paths_empty_hop_zero (m : String → List String) (hm : Acyclic m)
    (s : String) (logs : List MessageLog) (hne : logs ≠ [])
    (hlogs : Acyclic (edgeMapOf logs)) :
    (∃ f0, ∀ fuel, f0 ≤ fuel → buildPathsForSenderID fuel s m = some []) ∧
    (∃ f0, ∀ fuel, f0 ≤ fuel → calcLastDeliveryHop fuel logs = some 0) := by
  obtain ⟨rank, hrank⟩ := hm
  constructor
  · exact ⟨rank s + 1, fun fuel hf =>
      buildPathsForSenderID_eq_some_nil m rank hrank fuel s (by omega)⟩
  · obtain ⟨rank2, hrank2⟩ := hlogs
    match logs, hne with
    | first :: rest, _ =>
      refine ⟨rank2 first.SenderID + 1, fun fuel hf => ?_⟩
      simp only [calcLastDeliveryHop]
      rw [buildPathsForSenderID_eq_some_nil (edgeMapOf (first :: rest)) rank2 hrank2
        fuel first.SenderID (by omega)]
      simp

/-- Witness for C2 at the concrete chain `A→B→C→D`. -/
theorem acyclic_paths_empty_hop_zero_witness :
    Acyclic (edgeMapOf chainLogs) ∧ chainLogs ≠ [] ∧
    ((∃ f0, ∀ fuel, f0 ≤ fuel →
        buildPathsForSenderID fuel "A" (edgeMapOf chainLogs) = some []) ∧
     (∃ f0, ∀ fuel, f0 ≤ fuel → calcLastDeliveryHop fuel chainLogs = some 0)) :=
  ⟨⟨chainRank, chainLogs_ranked⟩, by decide,
    acyclic_paths_empty_hop_zero (edgeMapOf chainLogs) ⟨chainRank, chainLogs_ranked⟩
      "A" chainLogs (by decide) ⟨chainRank, chainLogs_ranked⟩⟩

/-- C5: `buildPathsForSenderID` terminates (some fuel suffices) from any
start node of any acyclic edge map; it has no cycle guard, and on the
concrete input `A→B→A` — a forwarding chain back to an ancestor — it fails
to complete at every fuel, i.e. the Go original recurses indefinitely. -/
theorem buildPaths_terminates_acyclic_diverges_cyclic (m : String → List String)
    (hm : Acyclic m) (s : String) :
    (∃ fuel, (buildPathsForSenderID fuel s m).isSome = true) ∧
    (∀ fuel, buildPathsForSenderID fuel "A" cycleMap = none) := by
  constructor
  · obtain ⟨rank, hrank⟩ := hm
    exact ⟨rank s + 1,
      buildPathsForSenderID_isSome_of_ranked m rank hrank (rank s + 1) s (by omega)⟩
  · intro fuel
    exact (cycleMap_buildPaths_none fuel).1

/-- Witness for C5 at the concrete acyclic edge map of the chain. -/
theorem buildPaths_terminates_acyclic_diverges_cyclic_witness :
    Acyclic (edgeMapOf chainLogs) ∧
    ((∃ fuel, (buildPathsForSenderID fuel "A" (edgeMapOf chainLogs)).isSome = true) ∧
     (∀ fuel, buildPathsForSenderID fuel "A" cycleMap = none)) :=
  ⟨⟨chainRank, chainLogs_ranked⟩,
    buildPaths_terminates_acyclic_diverges_cyclic (edgeMapOf chainLogs)
      ⟨chainRank, chainLogs_ranked⟩ "A"⟩

/-- A non-empty group always contributes at least one identifier to the
unique-host set, so its count is never `0`. -/
theorem countUniqueHosts_cons_ne_zero (x : MessageLog) (xs : List MessageLog) :
    countUniqueHosts (x :: xs) ≠ 0 := by
  unfold countUniqueHosts
  intro h
  rw [List.length_eq_zero] at h
  have hmem : x.HostID ∈
      ((x :: xs).map (·.HostID) ++ (x :: xs).map (·.SenderID)).dedup :=
    List.mem_dedup.mpr (by simp)
  rw [h] at hmem
  exact (List.not_mem_nil _) hmem

/-- C3 counterexample: a group whose single record names one host both as
`HostID` and `SenderID` has exactly one unique host, and `calcRMR` does
NOT fail on it — only `uniqueHosts == 0` is guarded, and the `uniqueHosts
== 1` case falls through to the float division by zero. -/
theorem calcRMR_ok_at_one_host :
    countUniqueHosts [singleHostLog] = 1 ∧ (calcRMR [singleHostLog]).isOk = true :=
  ⟨by decide, rfl⟩

/-- C3 amended: `calcRMR` fails with the `InsufficientParticipants` error
exactly when the number of unique hosts is `0`; a non-empty group always
has at least one unique host, so on non-empty groups the error never
fires (at `uniqueHosts == 1` the reference returns a non-finite float
value rather than an error). -/
theorem calcRMR_error_iff_zero_hosts :
    (∀ logs : List MessageLog,
      (calcRMR logs = .error "cannot calculate RMR with one host" ↔
        countUniqueHosts logs = 0)) ∧
    (∀ (x : MessageLog) (xs : List MessageLog), countUniqueHosts (x :: xs) ≠ 0) := by
  constructor
  · intro logs
    unfold calcRMR
    by_cases h : countUniqueHosts logs = 0
    · simp [h]
    · simp [h]
  · exact countUniqueHosts_cons_ne_zero

/-- C8: whenever a group has at least two unique hosts, `calcRMR` returns
`(recordCount / (uniqueHosts - 1)) - 1` (division modelled over `ℚ`; the
concrete instance below is exact in `float32` as well); in particular for
the four-record, three-host group it returns exactly `1`. -/
theorem calcRMR_formula (logs : List MessageLog) (h : 2 ≤ countUniqueHosts logs) :
    calcRMR logs =
      .ok ((logs.length : ℚ) / ((countUniqueHosts logs : ℚ) - 1) - 1) ∧
    calcRMR rmrExample = .ok 1 := by
  constructor
  · unfold calcRMR
    rw [if_neg (by omega)]
  · have hc : countUniqueHosts rmrExample = 3 := by decide
    have hl : rmrExample.length = 4 := by decide
    unfold calcRMR
    rw [hc, hl, if_neg (by omega)]
    norm_num

/-- Witness for C8 at the four-record, three-host group. -/
theorem calcRMR_formula_witness :
    2 ≤ countUniqueHosts rmrExample ∧
    calcRMR rmrExample =
      .ok ((rmrExample.length : ℚ) / ((countUniqueHosts rmrExample : ℚ) - 1) - 1) :=
  ⟨by decide, (calcRMR_formula rmrExample (by decide)).1⟩

/-- The modelled group sort returns a chronologically sorted list. -/
theorem sorterSort_sorted (logs : List MessageLog) :
    List.Sorted nanoLE (sorterSort logs) :=
  List.sorted_insertionSort nanoLE logs

/-- The modelled group sort permutes its input. -/
theorem sorterSort_perm (logs : List MessageLog) : (sorterSort logs).Perm logs :=
  List.perm_insertionSort nanoLE logs

/-- C6: after sorting, a non-empty group's `nanoTime` values are
non-decreasing, and `calcTotalNanoTime` on the sorted group is exactly the
last record's `nanoTime` minus the first record's — the difference is
non-negative, so its cast to `uint64` (the wrap modulo `2 ^ 64`) equals
the true difference, given that every timestamp fits in an `int64`. -/
theorem sorted_nano_and_totalNanoTime (x : MessageLog) (xs : List MessageLog)
    (hrange : ∀ r ∈ x :: xs, Int64Range r.NanoTime) :
    ((sorterSort (x :: xs)).map (·.NanoTime)).Sorted (· ≤ ·) ∧
    ∃ a b, (sorterSort (x :: xs)).head? = some a ∧
      (sorterSort (x :: xs)).getLast? = some b ∧
      a.NanoTime ≤ b.NanoTime ∧
      calcTotalNanoTime (sorterSort (x :: xs)) = (b.NanoTime - a.NanoTime).toNat := by
  have hsorted := sorterSort_sorted (x :: xs)
  have hperm := sorterSort_perm (x :: xs)
  constructor
  · exact List.pairwise_map.mpr hsorted
  · have hne : sorterSort (x :: xs) ≠ [] := by
      intro h
      have := hperm.length_eq
      rw [h] at this
      simp at this
    obtain ⟨a, tl, htl⟩ := List.exists_cons_of_ne_nil hne
    have hb := List.getLast?_eq_getLast (sorterSort (x :: xs)) hne
    set b := (sorterSort (x :: xs)).getLast hne with hbdef
    have hbmem : b ∈ sorterSort (x :: xs) := List.getLast_mem hne
    have hamem : a ∈ sorterSort (x :: xs) := by rw [htl]; exact List.mem_cons_self a tl
    have hale : a.NanoTime ≤ b.NanoTime := by
      rw [htl] at hbmem hsorted
      rcases List.mem_cons.mp hbmem with h | h
      · rw [h]
      · exact List.rel_of_sorted_cons hsorted b h
    refine ⟨a, b, by rw [htl]; rfl, hb, hale, ?_⟩
    have hrb : Int64Range b.NanoTime := hrange b (hperm.mem_iff.mp hbmem)
    have hra : Int64Range a.NanoTime := hrange a (hperm.mem_iff.mp hamem)
    have hb' := hb
    rw [htl, List.getLast?_eq_getLast (a :: tl) (List.cons_ne_nil a tl)] at hb'
    have hb2 : (a :: tl).getLast (List.cons_ne_nil a tl) = b := Option.some_inj.mp hb'
    rw [htl]
    simp only [calcTotalNanoTime, goUInt64OfInt]
    rw [hb2]
    have h0 : (0:Int) ≤ b.NanoTime - a.NanoTime := by omega
    have h1 : b.NanoTime - a.NanoTime < 2 ^ 64 := by
      obtain ⟨hb1, hb2⟩ := hrb
      obtain ⟨ha1, ha2⟩ := hra
      omega
    rw [Int.emod_eq_of_lt h0 h1]

/-- Witness for C6 at a concrete two-record group given out of order. -/
theorem sorted_nano_and_totalNanoTime_witness :
    (∀ r ∈ [(⟨"B", "A", "m1", 0, 7, 0⟩ : MessageLog), ⟨"C", "B", "m1", 0, 2, 1⟩],
      Int64Range r.NanoTime) ∧
    (((sorterSort [⟨"B", "A", "m1", 0, 7, 0⟩, ⟨"C", "B", "m1", 0, 2, 1⟩]).map
        (·.NanoTime)).Sorted (· ≤ ·) ∧
      ∃ a b,
        (sorterSort [(⟨"B", "A", "m1", 0, 7, 0⟩ : MessageLog),
          ⟨"C", "B", "m1", 0, 2, 1⟩]).head? = some a ∧
        (sorterSort [(⟨"B", "A", "m1", 0, 7, 0⟩ : MessageLog),
          ⟨"C", "B", "m1", 0, 2, 1⟩]).getLast? = some b ∧
        a.NanoTime ≤ b.NanoTime ∧
        calcTotalNanoTime (sorterSort [⟨"B", "A", "m1", 0, 7, 0⟩, ⟨"C", "B", "m1", 0, 2, 1⟩]) =
          (b.NanoTime - a.NanoTime).toNat) :=
  ⟨by decide, sorted_nano_and_totalNanoTime ⟨"B", "A", "m1", 0, 7, 0⟩
    [⟨"C", "B", "m1", 0, 2, 1⟩] (by decide)⟩

/-- Counting a record in one bucket of the grouping: the full count of the
record when the bucket key is its `messageID`, `0` otherwise. -/
theorem count_filter_messageID (logs : List MessageLog) (k : String) (a : MessageLog) :
    List.count a (logs.filter fun r => r.MessageID == k) =
      if a.MessageID = k then List.count a logs else 0 := by
  by_cases h : a.MessageID = k
  · rw [if_pos h]
    exact List.count_filter (by simp [h])
  · rw [if_neg h]
    rw [List.count_eq_zero]
    intro hmem
    exact h (by simpa using (List.mem_filter.mp hmem).2)

/-- Summing an indicator over a duplicate-free list of keys. -/
theorem sum_map_ite_nodup (c : String) (v : Nat) :
    ∀ (o : List String), o.Nodup →
      (o.map fun k => if c = k then v else 0).sum = if c ∈ o then v else 0 := by
  intro o
  induction o with
  | nil => simp
  | cons k o ih =>
    intro hn
    rw [List.nodup_cons] at hn
    simp only [List.map_cons, List.sum_cons]
    by_cases h : c = k
    · subst h
      rw [if_pos rfl, ih hn.2, if_neg hn.1, if_pos (List.mem_cons_self c o), Nat.add_zero]
    · rw [if_neg h, ih hn.2]
      by_cases hm : c ∈ o
      · rw [if_pos hm, if_pos (List.mem_cons_of_mem k hm), Nat.zero_add]
      · rw [if_neg hm, if_neg (by simp [h, hm])]

/-- A valid iteration order is duplicate-free. -/
theorem validOrder_nodup (order : List String) (logs : List MessageLog)
    (h : validOrder order logs) : order.Nodup :=
  h.nodup_iff.mpr (List.nodup_dedup _)

/-- Flattening the grouping recovers the input up to permutation: no
record is lost or duplicated. -/
theorem groupMessageLogsByID_flatten_perm (order : List String) (logs : List MessageLog)
    (h : validOrder order logs) :
    ((groupMessageLogsByID order logs).flatten).Perm logs := by
  rw [List.perm_iff_count]
  intro a
  rw [List.count_flatten, groupMessageLogsByID, List.map_map]
  simp only [Function.comp_def]
  rw [List.map_congr_left (fun k _ => count_filter_messageID logs k a)]
  rw [sum_map_ite_nodup a.MessageID (List.count a logs) order (validOrder_nodup order logs h)]
  by_cases hm : a.MessageID ∈ order
  · rw [if_pos hm]
  · rw [if_neg hm]
    symm
    rw [List.count_eq_zero]
    intro halog
    exact hm (h.mem_iff.mpr (List.mem_dedup.mpr (List.mem_map_of_mem _ halog)))

/-- C7: for every run of the grouping (any map-iteration order), the
output is a partition of the input: every group is non-empty and
single-`messageID`, distinct groups carry distinct `messageID`s, and the
concatenation of the groups is a permutation of the input. -/
theorem groupMessageLogsByID_partitions (order : List String) (logs : List MessageLog)
    (h : validOrder order logs) :
    (∀ g ∈ groupMessageLogsByID order logs, g ≠ [] ∧
      ∀ r1 ∈ g, ∀ r2 ∈ g, r1.MessageID = r2.MessageID) ∧
    List.Pairwise (fun g1 g2 => ∀ r1 ∈ g1, ∀ r2 ∈ g2, r1.MessageID ≠ r2.MessageID)
      (groupMessageLogsByID order logs) ∧
    ((groupMessageLogsByID order logs).flatten).Perm logs := by
  refine ⟨?_, ?_, groupMessageLogsByID_flatten_perm order logs h⟩
  · intro g hg
    rw [groupMessageLogsByID, List.mem_map] at hg
    obtain ⟨k, hk, rfl⟩ := hg
    constructor
    · have hk' : k ∈ keysOf logs := h.subset hk
      rw [keysOf, List.mem_dedup, List.mem_map] at hk'
      obtain ⟨r, hr, hrid⟩ := hk'
      intro hnil
      have hrin : r ∈ logs.filter fun r => r.MessageID == k :=
        List.mem_filter.mpr ⟨hr, by simp [hrid]⟩
      rw [hnil] at hrin
      exact List.not_mem_nil _ hrin
    · intro r1 h1 r2 h2
      have e1 : r1.MessageID = k := by simpa using (List.mem_filter.mp h1).2
      have e2 : r2.MessageID = k := by simpa using (List.mem_filter.mp h2).2
      rw [e1, e2]
  · rw [groupMessageLogsByID, List.pairwise_map]
    refine (validOrder_nodup order logs h).imp ?_
    intro k1 k2 hne r1 h1 r2 h2
    have e1 : r1.MessageID = k1 := by simpa using (List.mem_filter.mp h1).2
    have e2 : r2.MessageID = k2 := by simpa using (List.mem_filter.mp h2).2
    rw [e1, e2]
    exact hne

/-- Witness for C7 at a concrete two-message input. -/
theorem groupMessageLogsByID_partitions_witness :
    validOrder ["m1", "m2"] twoMessageLogs ∧
    ((∀ g ∈ groupMessageLogsByID ["m1", "m2"] twoMessageLogs, g ≠ [] ∧
        ∀ r1 ∈ g, ∀ r2 ∈ g, r1.MessageID = r2.MessageID) ∧
      List.Pairwise (fun g1 g2 => ∀ r1 ∈ g1, ∀ r2 ∈ g2, r1.MessageID ≠ r2.MessageID)
        (groupMessageLogsByID ["m1", "m2"] twoMessageLogs) ∧
      ((groupMessageLogsByID ["m1", "m2"] twoMessageLogs).flatten).Perm twoMessageLogs) :=
  ⟨by decide, groupMessageLogsByID_partitions ["m1", "m2"] twoMessageLogs (by decide)⟩

/-- The bucket of a key that occurs in the input is non-empty. -/
theorem bucket_ne_nil_of_mem_keys (logs : List MessageLog) (k : String)
    (hk : k ∈ keysOf logs) : (logs.filter fun r => r.MessageID == k) ≠ [] := by
  rw [keysOf, List.mem_dedup, List.mem_map] at hk
  obtain ⟨r, hr, hrid⟩ := hk
  intro hnil
  have hrin : r ∈ logs.filter fun r => r.MessageID == k :=
    List.mem_filter.mpr ⟨hr, by simp [hrid]⟩
  rw [hnil] at hrin
  exact List.not_mem_nil _ hrin

/-- Sorting preserves (non-)emptiness. -/
theorem sorterSort_ne_nil (logs : List MessageLog) (h : logs ≠ []) :
    sorterSort logs ≠ [] := by
  intro hnil
  have hlen := (sorterSort_perm logs).length_eq
  rw [hnil] at hlen
  exact h (List.length_eq_zero.mp hlen.symm)

/-- On a non-empty group whose hop computation completes, the per-group
metric construction succeeds. -/
theorem buildMetricsFromSortedMessageLogs_isOk (fuel : Nat) (x : MessageLog)
    (xs : List MessageLog)
    (hterm : (calcLastDeliveryHop fuel (x :: xs)).isSome = true) :
    ∃ metric, buildMetricsFromSortedMessageLogs fuel (x :: xs) = some (.ok metric) := by
  obtain ⟨hop, hhop⟩ := Option.isSome_iff_exists.mp hterm
  have hrmr : calcRMR (x :: xs) =
      .ok (((x :: xs).length : ℚ) / ((countUniqueHosts (x :: xs) : ℚ) - 1) - 1) := by
    unfold calcRMR
    rw [if_neg (countUniqueHosts_cons_ne_zero x xs)]
  simp only [buildMetricsFromSortedMessageLogs]
  rw [hrmr, hhop]
  exact ⟨_, rfl⟩

/-- On the sorted bucket of a key occurring in the input, the per-group
metric construction returns exactly `metricForID`. -/
theorem buildMetric_group_ok (fuel : Nat) (logs : List MessageLog) (k : String)
    (hk : k ∈ keysOf logs)
    (hterm : (calcLastDeliveryHop fuel
      (sorterSort (logs.filter fun r => r.MessageID == k))).isSome = true) :
    buildMetricsFromSortedMessageLogs fuel
        (sorterSort (logs.filter fun r => r.MessageID == k)) =
      some (.ok (metricForID fuel logs k)) := by
  have hne := sorterSort_ne_nil _ (bucket_ne_nil_of_mem_keys logs k hk)
  obtain ⟨x, xs, hxs⟩ := List.exists_cons_of_ne_nil hne
  rw [hxs] at hterm
  obtain ⟨metric, hm⟩ := buildMetricsFromSortedMessageLogs_isOk fuel x xs hterm
  rw [hxs, hm]
  unfold metricForID
  rw [hxs, hm]

/-- Evaluating the whole pipeline when each listed key occurs in the input
and its hop computation completes: one `metricForID` per key, in key
order. -/
theorem pipeline_eval (fuel : Nat) (logs : List MessageLog) :
    ∀ (o : List String),
      (∀ k ∈ o, k ∈ keysOf logs ∧
        (calcLastDeliveryHop fuel
          (sorterSort (logs.filter fun r => r.MessageID == k))).isSome = true) →
      buildMetricsFromMessageLogs fuel o logs =
        some (.ok (o.map (metricForID fuel logs))) := by
  intro o
  induction o with
  | nil => intro _; rfl
  | cons k o ih =>
    intro h
    have hk := h k (List.mem_cons_self k o)
    have hrest := fun k' h' => h k' (List.mem_cons_of_mem k h')
    unfold buildMetricsFromMessageLogs at ih ⊢
    simp only [groupMessageLogsByID, List.map_cons, sortMessageLogs,
      List.map_cons, buildMetricsFromSortedMessageLogsGroups] at ih ⊢
    rw [buildMetric_group_ok fuel logs k hk.1 hk.2]
    rw [ih hrest]

/-- C4 corrected: for every fixed fuel and any two map-iteration orders the
runtime may take, the pipeline completes on both (given each group's hop
computation completes) and the two output sequences are permutations of
each other — the multiset of metrics is a deterministic function of the
input, but the order of the groups follows the Go map iteration order. -/
theorem pipeline_deterministic_up_to_perm (fuel : Nat) (logs : List MessageLog)
    (o1 o2 : List String) (h1 : validOrder o1 logs) (h2 : validOrder o2 logs)
    (hterm : ∀ k ∈ keysOf logs,
      (calcLastDeliveryHop fuel
        (sorterSort (logs.filter fun r => r.MessageID == k))).isSome = true) :
    ∃ l1 l2, buildMetricsFromMessageLogs fuel o1 logs = some (.ok l1) ∧
      buildMetricsFromMessageLogs fuel o2 logs = some (.ok l2) ∧ l1.Perm l2 := by
  refine ⟨o1.map (metricForID fuel logs), o2.map (metricForID fuel logs),
    pipeline_eval fuel logs o1 (fun k hk => ⟨h1.subset hk, hterm k (h1.subset hk)⟩),
    pipeline_eval fuel logs o2 (fun k hk => ⟨h2.subset hk, hterm k (h2.subset hk)⟩),
    (h1.trans h2.symm).map (metricForID fuel logs)⟩

/-- Witness for C4's corrected claim at a concrete two-message input. -/
theorem pipeline_deterministic_up_to_perm_witness :
    validOrder ["m1", "m2"] twoMessageLogs ∧ validOrder ["m2", "m1"] twoMessageLogs ∧
    (∀ k ∈ keysOf twoMessageLogs,
      (calcLastDeliveryHop 5
        (sorterSort (twoMessageLogs.filter fun r => r.MessageID == k))).isSome = true) ∧
    (∃ l1 l2, buildMetricsFromMessageLogs 5 ["m1", "m2"] twoMessageLogs = some (.ok l1) ∧
      buildMetricsFromMessageLogs 5 ["m2", "m1"] twoMessageLogs = some (.ok l2) ∧
      l1.Perm l2) :=
  ⟨by decide, by decide, by decide,
    pipeline_deterministic_up_to_perm 5 twoMessageLogs ["m1", "m2"] ["m2", "m1"]
      (by decide) (by decide) (by decide)⟩

/-- C4 counterexample: two runs of the pipeline on the same fixed input,
differing only in the (unspecified) Go map iteration order, produce
different output sequences — the metrics of `m1` and `m2` appear in
different positions. -/
theorem pipeline_depends_on_map_order :
    validOrder ["m1", "m2"] twoMessageLogs ∧ validOrder ["m2", "m1"] twoMessageLogs ∧
    buildMetricsFromMessageLogs 5 ["m1", "m2"] twoMessageLogs ≠
      buildMetricsFromMessageLogs 5 ["m2", "m1"] twoMessageLogs := by
  refine ⟨by decide, by decide, fun h => ?_⟩
  have hproj : some (some [100, 0]) = some (some [0, 100]) := by
    calc some (some [100, 0])
        = Option.map (Option.map (fun l => l.map Metric.TotalNanoTime) ∘ Except.toOption)
            (buildMetricsFromMessageLogs 5 ["m1", "m2"] twoMessageLogs) := rfl
      _ = Option.map (Option.map (fun l => l.map Metric.TotalNanoTime) ∘ Except.toOption)
            (buildMetricsFromMessageLogs 5 ["m2", "m1"] twoMessageLogs) := by rw [h]
      _ = some (some [0, 100]) := rfl
  simp at hproj

/-- A list of length six is literally a six-element list. -/
theorem length_six_shape (data : List (List Char)) (h : data.length = 6) :
    ∃ a b c d e f, data = [a, b, c, d, e, f] := by
  rcases data with _ | ⟨a, _ | ⟨b, _ | ⟨c, _ | ⟨d, _ | ⟨e, _ | ⟨f, _ | ⟨g, rest⟩⟩⟩⟩⟩⟩⟩
  · simp at h
  · simp at h
  · simp at h
  · simp at h
  · simp at h
  · simp at h
  · exact ⟨a, b, c, d, e, f, rfl⟩
  · simp only [List.length_cons] at h
    omega

/-- On a six-field record, the record builder fails exactly when one of
the three numeric fields fails its `strconv` conversion, and the only
error it ever returns is `MalformedLogLine` — never a `strconv` error. -/
theorem buildMessageLog_cases (a b c d e f : List Char) :
    (∀ err, buildMessageLogFromStrings [a, b, c, d, e, f] = .error err →
      err = ParseError.MalformedLogLine) ∧
    (buildMessageLogFromStrings [a, b, c, d, e, f] = .error ParseError.MalformedLogLine ↔
      ((goParseUint64 d).isOk = false ∨ (goParseInt64 e).isOk = false ∨
        (goAtoi f).isOk = false)) := by
  simp only [buildMessageLogFromStrings]
  cases hd : goParseUint64 d with
  | error s => simp [Except.isOk, Except.toBool]
  | ok v =>
    cases he : goParseInt64 e with
    | error s => simp [Except.isOk, Except.toBool]
    | ok w =>
      cases hf : goAtoi f with
      | error s => simp [Except.isOk, Except.toBool]
      | ok u => simp [Except.isOk, Except.toBool]

/-- C9: on every relevant line (one containing the marker), the parser
fails exactly when the comma-split field count differs from six or one of
`seqNo`, `nanoTime`, `seq` fails its numeric conversion, and the only
error it ever returns is `MalformedLogLine`: the underlying numeric-parse
error is never surfaced. -/
theorem parseLogLine_malformed (marker : String) (logLine : List Char)
    (hrel : containsChars marker.toList logLine = true) :
    (∀ e, parseLogLine marker logLine = .error e → e = ParseError.MalformedLogLine) ∧
    (parseLogLine marker logLine = .error ParseError.MalformedLogLine ↔
      ((splitOnComma (removeAllChars marker.toList logLine)).length ≠ 6 ∨
        (goParseUint64
          ((splitOnComma (removeAllChars marker.toList logLine)).getD 3 [])).isOk = false ∨
        (goParseInt64
          ((splitOnComma (removeAllChars marker.toList logLine)).getD 4 [])).isOk = false ∨
        (goAtoi
          ((splitOnComma (removeAllChars marker.toList logLine)).getD 5 [])).isOk = false)) := by
  simp only [parseLogLine]
  rw [if_neg (by rw [hrel]; simp)]
  generalize splitOnComma (removeAllChars marker.toList logLine) = data
  by_cases hlen : data.length = 6
  · rw [if_neg (fun hh => hh hlen)]
    obtain ⟨a, b, c, d, e, f, rfl⟩ := length_six_shape data hlen
    have g3 : [a, b, c, d, e, f].getD 3 [] = d := rfl
    have g4 : [a, b, c, d, e, f].getD 4 [] = e := rfl
    have g5 : [a, b, c, d, e, f].getD 5 [] = f := rfl
    rw [g3, g4, g5]
    constructor
    · intro err herr
      cases hb : buildMessageLogFromStrings [a, b, c, d, e, f] with
      | error err2 =>
        rw [hb] at herr
        injection herr with h2
        exact h2 ▸ (buildMessageLog_cases a b c d e f).1 err2 hb
      | ok v =>
        rw [hb] at herr
        exact Except.noConfusion herr
    · have hiff := (buildMessageLog_cases a b c d e f).2
      constructor
      · intro hmap
        refine Or.inr (hiff.mp ?_)
        cases hb : buildMessageLogFromStrings [a, b, c, d, e, f] with
        | error err2 =>
          rw [(buildMessageLog_cases a b c d e f).1 err2 hb]
        | ok v =>
          rw [hb] at hmap
          exact Except.noConfusion hmap
      · intro hor
        rcases hor with hor | hor
        · exact absurd hlen hor
        · rw [hiff.mpr hor]
          rfl
  · rw [if_pos hlen]
    refine ⟨fun e he => ?_, Iff.intro (fun _ => Or.inl hlen) (fun _ => rfl)⟩
    cases he
    rfl

/-- Witness for C9: a relevant line whose fourth field is not numeric. -/
theorem parseLogLine_malformed_witness :
    containsChars "MARKER".toList "MARKERa,b,c,x,2,3".toList = true ∧
    (parseLogLine "MARKER" "MARKERa,b,c,x,2,3".toList = .error ParseError.MalformedLogLine ↔
      ((splitOnComma (removeAllChars "MARKER".toList "MARKERa,b,c,x,2,3".toList)).length ≠ 6 ∨
        (goParseUint64
          ((splitOnComma
            (removeAllChars "MARKER".toList "MARKERa,b,c,x,2,3".toList)).getD 3 [])).isOk
              = false ∨
        (goParseInt64
          ((splitOnComma
            (removeAllChars "MARKER".toList "MARKERa,b,c,x,2,3".toList)).getD 4 [])).isOk
              = false ∨
        (goAtoi
          ((splitOnComma
            (removeAllChars "MARKER".toList "MARKERa,b,c,x,2,3".toList)).getD 5 [])).isOk
              = false)) :=
  ⟨by decide,
    (parseLogLine_malformed "MARKER" "MARKERa,b,c,x,2,3".toList (by decide)).2⟩

/-- C10: a line that does not contain the marker substring is reported as
irrelevant (`.ok none`, the Go `nil, nil`), never as an error, whatever
its content. -/
theorem parseLogLine_irrelevant (marker : String) (logLine : List Char)
    (h : containsChars marker.toList logLine = false) :
    parseLogLine marker logLine = .ok none := by
  unfold parseLogLine
  rw [if_pos h]

/-- Witness for C10 at a concrete marker-free line. -/
theorem parseLogLine_irrelevant_witness :
    containsChars "MARKER".toList "plain line, not relevant, at all".toList = false ∧
    parseLogLine "MARKER" "plain line, not relevant, at all".toList = .ok none :=
  ⟨by decide,
    parseLogLine_irrelevant "MARKER" "plain line, not relevant, at all".toList (by decide)⟩

end GossipHost
